import Mathlib

/-
Verification of the primitive value codec and multicall calldata encoder of
the starknet-probe CLI (src/probe/mod.rs), shallowly embedded in Lean 4.
Field elements are modelled as natural numbers; strings as lists of
characters.  Functions that live in the external starknet SDK crate
(FieldElement parsing and formatting, selector hashing) are modelled from
the specification; everything else is translated directly from the Rust
source.
-/

namespace StarknetProbe

/-- The STARK field prime P = 2^251 + 17 * 2^192 + 1. -/
def P : Nat := 2 ^ 251 + 17 * 2 ^ 192 + 1

/-- Errors produced by felt parsing / the u256 splitter
(the spec's InvalidFormat / OutOfRange taxonomy). -/
inductive FeltError where
  | invalidFormat
  | outOfRange
  deriving DecidableEq

/-- Errors produced by the multicall encoder.  Each constructor mirrors one
eyre error message of generate_multicall_calldata:
missingTo i       = "missing contract address for call i"        (MissingField "to" i)
missingSelector i = "missing function name for call i"           (MissingField "selector" i)
invalidCalldataToken i e = "{e} in calldata for call i"          (InvalidCalldata i e)
invalidTarget i e = "{e} for call i contract address"            (InvalidCalldata i e, target token). -/
inductive MulticallError where
  | missingTo (i : Nat)
  | missingSelector (i : Nat)
  | invalidCalldataToken (i : Nat) (e : FeltError)
  | invalidTarget (i : Nat) (e : FeltError)
  deriving DecidableEq

/-- A parsed sub-call: starknet::accounts::Call with felts as naturals. -/
structure Call where
  «to» : Nat
  selector : Nat
  calldata : List Nat
  deriving DecidableEq

instance instDecEqExcept {ε α : Type} [DecidableEq ε] [DecidableEq α] :
    DecidableEq (Except ε α) := fun
  | .ok a, .ok b =>
    if h : a = b then .isTrue (by rw [h])
    else .isFalse (by intro hc; cases hc; exact h rfl)
  | .ok _, .error _ => .isFalse (by intro h; cases h)
  | .error _, .ok _ => .isFalse (by intro h; cases h)
  | .error e, .error f =>
    if h : e = f then .isTrue (by rw [h])
    else .isFalse (by intro hc; cases hc; exact h rfl)

/-- Value of a single hex digit character, the alphabet accepted by the hex
crate and by the spec's parse_hex (0-9, a-f, A-F). -/
def hexVal? (c : Char) : Option Nat :=
  if 48 ≤ c.toNat ∧ c.toNat ≤ 57 then some (c.toNat - 48)
  else if 97 ≤ c.toNat ∧ c.toNat ≤ 102 then some (c.toNat - 87)
  else if 65 ≤ c.toNat ∧ c.toNat ≤ 70 then some (c.toNat - 55)
  else none

/-- Value of a single decimal digit character. -/
def decVal? (c : Char) : Option Nat :=
  if 48 ≤ c.toNat ∧ c.toNat ≤ 57 then some (c.toNat - 48) else none

/-- Values of a list of hex digit characters; none if any character is not a
hex digit. -/
def hexVals? : List Char → Option (List Nat)
  | [] => some []
  | c :: cs =>
    match hexVal? c, hexVals? cs with
    | some v, some vs => some (v :: vs)
    | _, _ => none

/-- Values of a list of decimal digit characters; none if any character is
not a decimal digit. -/
def decVals? : List Char → Option (List Nat)
  | [] => some []
  | c :: cs =>
    match decVal? c, decVals? cs with
    | some v, some vs => some (v :: vs)
    | _, _ => none

/-- Big-endian value of a digit list in base b. -/
def beFoldB (b : Nat) (l : List Nat) : Nat :=
  l.foldl (fun a d => b * a + d) 0

/-- Little-endian value of a digit list in base b. -/
def leVal (b : Nat) : List Nat → Nat
  | [] => 0
  | d :: t => d + b * leVal b t

/-- Little-endian base-b digits of n, with explicit fuel (fuel ≥ n suffices).
Canonical: no trailing zero digit, [] for 0. -/
def digitsAux (b : Nat) : Nat → Nat → List Nat
  | 0, _ => []
  | fuel + 1, n => if n = 0 then [] else n % b :: digitsAux b fuel (n / b)

/-- Big-endian hex digit characters of n (canonical, [] for 0). -/
def hexCharsBE (n : Nat) : List Char :=
  (digitsAux 16 n n).reverse.map Nat.digitChar

/-- Big-endian decimal digit characters of n (canonical, [] for 0). -/
def decCharsBE (n : Nat) : List Char :=
  (digitsAux 10 n n).reverse.map Nat.digitChar

/-- Modelled from the spec: FeltCodec format_hex (the starknet crate's
lowercase alternate LowerHex formatting of FieldElement, used by to_hex and
by split_u256's output formatting).  Canonical lowercase 0x-prefixed hex,
value 0 formats as 0x0. -/
def format_hex (n : Nat) : List Char :=
  '0' :: 'x' :: (if n = 0 then ['0'] else hexCharsBE n)

/-- Modelled from the spec: FeltCodec format_decimal (FieldElement Display,
used by to_dec).  Canonical decimal digits, value 0 formats as 0. -/
def format_decimal (n : Nat) : List Char :=
  if n = 0 then ['0'] else decCharsBE n

/-- Strip one optional case-insensitive 0x prefix (spec's parse_hex prefix
handling). -/
def dropHexPre (s : List Char) : List Char :=
  match s with
  | '0' :: 'x' :: r => r
  | '0' :: 'X' :: r => r
  | _ => s

/-- Modelled from the spec: FeltCodec parse_hex.  Optional case-insensitive
0x prefix, then hex digits; InvalidFormat on a non-hex character,
OutOfRange when the value is ≥ P. -/
def parse_hex (s : List Char) : Except FeltError Nat :=
  match hexVals? (dropHexPre s) with
  | none => .error .invalidFormat
  | some vs =>
    let v := beFoldB 16 vs
    if v < P then .ok v else .error .outOfRange

/-- Modelled from the spec: FeltCodec parse_decimal.  ASCII digits only;
InvalidFormat on any other character, OutOfRange when the value is ≥ P. -/
def parse_decimal (s : List Char) : Except FeltError Nat :=
  match decVals? s with
  | none => .error .invalidFormat
  | some vs =>
    let v := beFoldB 10 vs
    if v < P then .ok v else .error .outOfRange

/-- Modelled from the spec: FieldElement::from_str, the parse_hex /
parse_decimal chain — a token starting with the lowercase 0x prefix is
parsed as hex, any other token as decimal. -/
def from_str (s : List Char) : Except FeltError Nat :=
  match s with
  | '0' :: 'x' :: _ => parse_hex s
  | _ => parse_decimal s

/-- Rust str::trim_start_matches "0x": remove every leading occurrence of
the substring "0x" (split_u256's prefix handling). -/
def strip0x (l : List Char) : List Char :=
  match l with
  | c1 :: c2 :: rest => if c1 = '0' ∧ c2 = 'x' then strip0x rest else l
  | _ => l

/-- split_u256 from src/probe/mod.rs: strip every leading "0x", reject more
than 64 hex digits as OutOfRange, left-pad with '0' to 64 digits, decode the
64 digits big-endian (hex::decode; a non-hex character fails), split into
the first 16 bytes (high) and last 16 bytes (low), and format both halves
canonically. -/
def split_u256 (hex : List Char) : Except FeltError (List Char × List Char) :=
  let h := strip0x hex
  if h.length > 64 then .error .outOfRange
  else
    match hexVals? (List.replicate (64 - h.length) '0' ++ h) with
    | none => .error .invalidFormat
    | some vs =>
      .ok (format_hex (beFoldB 16 (vs.take 32)), format_hex (beFoldB 16 (vs.drop 32)))

/-- ASCII whitespace, the characters str::trim removes on the inputs in
scope here. -/
def isWsChar (c : Char) : Bool :=
  c = ' ' || c = '\t' || c = '\n' || c = '\r'

/-- Rust str::trim: drop whitespace from both ends. -/
def trimChars (l : List Char) : List Char :=
  ((l.dropWhile isWsChar).reverse.dropWhile isWsChar).reverse

/-- Rust str::split on a single character: splits at every occurrence,
keeping empty segments; the empty string yields one empty segment. -/
def splitOnChar (sep : Char) : List Char → List (List Char)
  | [] => [[]]
  | c :: cs =>
    if c = sep then [] :: splitOnChar sep cs
    else
      match splitOnChar sep cs with
      | [] => [[c]]
      | t :: ts => (c :: t) :: ts

/-- The calldata-token loop of generate_multicall_calldata: parse each
remaining whitespace token of call i as a felt; the first failure aborts
with the "in calldata for call i" error. -/
def parseFeltTokens (i : Nat) : List (List Char) → Except MulticallError (List Nat)
  | [] => .ok []
  | t :: ts =>
    match from_str t with
    | .error e => .error (.invalidCalldataToken i e)
    | .ok v =>
      match parseFeltTokens i ts with
      | .error e => .error e
      | .ok vs => .ok (v :: vs)

/-- One iteration of generate_multicall_calldata's loop, for the call at
1-based index i: take the first token as target and the second as function
name, then (in the source's evaluation order) parse the calldata tokens
first and the target token after them.  Selector hashing is the opaque
external collaborator hsel. -/
def parseCall (hsel : List Char → Nat) (i : Nat) (seg : List Char) :
    Except MulticallError Call :=
  match splitOnChar ' ' (trimChars seg) with
  | [] => .error (.missingTo i)
  | [_] => .error (.missingSelector i)
  | toTok :: selTok :: rest =>
    match parseFeltTokens i rest with
    | .error e => .error e
    | .ok cd =>
      match from_str toTok with
      | .error e => .error (.invalidTarget i e)
      | .ok t => .ok ⟨t, hsel selTok, cd⟩

/-- The whole parsing loop of generate_multicall_calldata, starting at call
index i. -/
def parseCalls (hsel : List Char → Nat) (i : Nat) :
    List (List Char) → Except MulticallError (List Call)
  | [] => .ok []
  | seg :: rest =>
    match parseCall hsel i seg with
    | .error e => .error e
    | .ok c =>
      match parseCalls hsel (i + 1) rest with
      | .error e => .error e
      | .ok cs => .ok (c :: cs)

/-- The loop of generate_calldata_for_multicall_account: state is the pair
(concated_calldata, execute_calldata). -/
def gcLoop : List Call → List Nat → List Nat → List Nat × List Nat
  | [], conc, exec => (conc, exec)
  | c :: cs, conc, exec =>
    gcLoop cs (conc ++ c.calldata)
      (exec ++ [c.«to», c.selector, conc.length, c.calldata.length])

/-- generate_calldata_for_multicall_account from src/probe/mod.rs. -/
def generate_calldata_for_multicall_account (calls : List Call) : List Nat :=
  let p := gcLoop calls [] [calls.length]
  p.2 ++ p.1.length :: p.1

/-- generate_multicall_calldata from src/probe/mod.rs: split the input on
the hyphen character, parse each segment as a call, then encode. -/
def generate_multicall_calldata (hsel : List Char → Nat) (args : List Char) :
    Except MulticallError (List Nat) :=
  match parseCalls hsel 1 (splitOnChar '-' args) with
  | .error e => .error e
  | .ok calls => .ok (generate_calldata_for_multicall_account calls)

/-- Concatenation of all calldata sequences in call order. -/
def concatAll : List (List Nat) → List Nat
  | [] => []
  | l :: ls => l ++ concatAll ls

/-- The documented header layout of the execute calldata: for each call in
order its target, selector, data offset (running total of preceding
calldata lengths, starting at off) and data length. -/
def specCallHeaders : List Call → Nat → List Nat
  | [], _ => []
  | c :: cs, off =>
    c.«to» :: c.selector :: off :: c.calldata.length ::
      specCallHeaders cs (off + c.calldata.length)

/-- Modelled from the spec, following claim C4's words as stated: strip at
most ONE optional "0x" prefix, then reject more than 64 digits as
OutOfRange, left-pad to 64 digits, decode big-endian and return the values
of the first and last 16 bytes, canonically formatted. -/
def dropOne0x (s : List Char) : List Char :=
  match s with
  | '0' :: 'x' :: r => r
  | _ => s

/-- Modelled from the spec, claim C4 as stated (single optional prefix). -/
def split_u256_asClaimed (hex : List Char) : Except FeltError (List Char × List Char) :=
  let h := dropOne0x hex
  if h.length > 64 then .error .outOfRange
  else
    match hexVals? (List.replicate (64 - h.length) '0' ++ h) with
    | none => .error .invalidFormat
    | some vs =>
      let v := beFoldB 16 vs
      .ok (format_hex (v / 2 ^ 128), format_hex (v % 2 ^ 128))

/-- Modelled from the spec, claim C4 amended: every leading lowercase "0x"
is stripped; more than 64 remaining digits fail OutOfRange; otherwise the
input is left-padded to 64 digits, decoded as a big-endian 256-bit integer
v, and the returned pair is the value of the first 16 bytes (v / 2^128) and
of the last 16 bytes (v % 2^128), canonically formatted. -/
def split_u256_specAmended (hex : List Char) : Except FeltError (List Char × List Char) :=
  let h := strip0x hex
  if h.length > 64 then .error .outOfRange
  else
    match hexVals? (List.replicate (64 - h.length) '0' ++ h) with
    | none => .error .invalidFormat
    | some vs =>
      let v := beFoldB 16 vs
      .ok (format_hex (v / 2 ^ 128), format_hex (v % 2 ^ 128))

/-- The join realization used by get_eth_balance: high's 0x-prefixed
canonical hex (alternate LowerHex) concatenated with low's unpadded
canonical hex (plain LowerHex). -/
def join_concat (hi lo : Nat) : List Char :=
  format_hex hi ++ (if lo = 0 then ['0'] else hexCharsBE lo)


/-! ### Lemmas about the encoder -/

theorem gcLoop_spec : ∀ (cs : List Call) (conc exec : List Nat),
    gcLoop cs conc exec =
      (conc ++ concatAll (cs.map Call.calldata),
       exec ++ specCallHeaders cs conc.length) := by
  intro cs
  induction cs with
  | nil => intro conc exec; simp [gcLoop, concatAll, specCallHeaders]
  | cons c t ih =>
    intro conc exec
    simp [gcLoop, concatAll, specCallHeaders, ih, List.append_assoc]

theorem parseCalls_cons_error (hsel : List Char → Nat) (i : Nat) (seg : List Char)
    (rest : List (List Char)) (e : MulticallError)
    (h : parseCall hsel i seg = .error e) :
    parseCalls hsel i (seg :: rest) = .error e := by
  simp [parseCalls, h]

theorem parseCalls_append_error (hsel : List Char → Nat) :
    ∀ (pre : List (List Char)) (i : Nat) (cs : List Call)
      (segs : List (List Char)) (e : MulticallError),
      parseCalls hsel i pre = .ok cs →
      parseCalls hsel (i + pre.length) segs = .error e →
      parseCalls hsel i (pre ++ segs) = .error e := by
  intro pre
  induction pre with
  | nil => intro i cs segs e _ h2; simpa using h2
  | cons s t ih =>
    intro i cs segs e h1 h2
    simp only [parseCalls, List.cons_append, List.append_eq] at h1 ⊢
    cases hc : parseCall hsel i s with
    | error e' => simp [hc] at h1
    | ok c =>
      simp only [hc] at h1 ⊢
      cases ht : parseCalls hsel (i + 1) t with
      | error e' => simp [ht] at h1
      | ok cs' =>
        have hidx : i + (s :: t).length = i + 1 + t.length := by
          simp [List.length_cons]; omega
        rw [hidx] at h2
        have hr := ih (i + 1) cs' segs e ht h2
        simp only [hr]

theorem gen_error (hsel : List Char → Nat) (args : List Char) (e : MulticallError)
    (h : parseCalls hsel 1 (splitOnChar '-' args) = .error e) :
    generate_multicall_calldata hsel args = .error e := by
  simp [generate_multicall_calldata, h]

theorem strip0x_0x (s : List Char) : strip0x ('0' :: 'x' :: s) = strip0x s := by
  rw [strip0x]
  simp

/-! ### Digit arithmetic lemmas -/

theorem leVal_digitsAux (b : Nat) (hb : 2 ≤ b) :
    ∀ fuel n, n ≤ fuel → leVal b (digitsAux b fuel n) = n := by
  intro fuel
  induction fuel with
  | zero =>
    intro n hn
    simp only [digitsAux, leVal]
    omega
  | succ f ih =>
    intro n hn
    by_cases h0 : n = 0
    · simp [digitsAux, h0, leVal]
    · rw [digitsAux, if_neg h0, leVal]
      have hdiv : n / b ≤ f := by
        have : n / b < n := Nat.div_lt_self (Nat.pos_of_ne_zero h0) hb
        omega
      rw [ih (n / b) hdiv]
      exact Nat.mod_add_div n b

theorem digitsAux_lt (b : Nat) (hb : 0 < b) :
    ∀ fuel n d, d ∈ digitsAux b fuel n → d < b := by
  intro fuel
  induction fuel with
  | zero => intro n d hd; simp [digitsAux] at hd
  | succ f ih =>
    intro n d hd
    by_cases h0 : n = 0
    · simp [digitsAux, h0] at hd
    · rw [digitsAux, if_neg h0] at hd
      rcases List.mem_cons.mp hd with h | h
      · exact h ▸ Nat.mod_lt _ hb
      · exact ih (n / b) d h

theorem digitsAux_length (b : Nat) (hb : 2 ≤ b) :
    ∀ fuel k n, n ≤ fuel → n < b ^ k → (digitsAux b fuel n).length ≤ k := by
  intro fuel
  induction fuel with
  | zero =>
    intro k n hn _
    have h0 : n = 0 := by omega
    simp [digitsAux]
  | succ f ih =>
    intro k n hn hk
    by_cases h0 : n = 0
    · simp [digitsAux, h0]
    · cases k with
      | zero =>
        simp only [pow_zero] at hk
        omega
      | succ k' =>
        rw [digitsAux, if_neg h0, List.length_cons]
        have hdl : n / b ≤ f := by
          have : n / b < n := Nat.div_lt_self (Nat.pos_of_ne_zero h0) hb
          omega
        have hdk : n / b < b ^ k' := by
          rw [Nat.div_lt_iff_lt_mul (by omega : 0 < b)]
          calc n < b ^ (k' + 1) := hk
          _ = b ^ k' * b := by ring
        have := ih k' (n / b) hdl hdk
        omega

theorem foldlMulAdd_init (b : Nat) :
    ∀ (l : List Nat) (a : Nat),
      l.foldl (fun x d => b * x + d) a = a * b ^ l.length + beFoldB b l := by
  intro l
  induction l with
  | nil => intro a; simp [beFoldB]
  | cons d t ih =>
    intro a
    have hcons : beFoldB b (d :: t) = d * b ^ t.length + beFoldB b t := by
      simp only [beFoldB, List.foldl_cons]
      have hz : b * 0 + d = d := by ring
      rw [hz, ih d]
      rfl
    simp only [List.foldl_cons, List.length_cons]
    rw [ih (b * a + d), hcons]
    ring

theorem beFoldB_cons (b d : Nat) (t : List Nat) :
    beFoldB b (d :: t) = d * b ^ t.length + beFoldB b t := by
  simp only [beFoldB, List.foldl_cons]
  have hz : b * 0 + d = d := by ring
  rw [hz, foldlMulAdd_init b t d]
  rfl

theorem beFoldB_reverse (b : Nat) : ∀ l : List Nat, beFoldB b l.reverse = leVal b l := by
  intro l
  induction l with
  | nil => simp [beFoldB, leVal]
  | cons d t ih =>
    simp only [List.reverse_cons, leVal]
    simp only [beFoldB, List.foldl_append, List.foldl_cons, List.foldl_nil]
    rw [show List.foldl (fun x d => b * x + d) 0 t.reverse = beFoldB b t.reverse from rfl, ih]
    ring

theorem beFoldB_lt (b : Nat) (_hb : 0 < b) :
    ∀ l : List Nat, (∀ d ∈ l, d < b) → beFoldB b l < b ^ l.length := by
  intro l
  induction l with
  | nil => intro _; simp [beFoldB]
  | cons d t ih =>
    intro hd
    rw [beFoldB_cons, List.length_cons]
    have hdb : d < b := hd d (List.mem_cons_self d t)
    have ht := ih (fun x hx => hd x (List.mem_cons_of_mem d hx))
    have hstep : (d + 1) * b ^ t.length ≤ b * b ^ t.length :=
      Nat.mul_le_mul_right _ (by omega)
    have hsucc : b * b ^ t.length = b ^ (t.length + 1) := by ring
    rw [Nat.succ_mul] at hstep
    omega

theorem beFoldB_take_drop (b : Nat) (l : List Nat) (k : Nat) :
    beFoldB b l =
      beFoldB b (l.take k) * b ^ (l.drop k).length + beFoldB b (l.drop k) := by
  conv_lhs => rw [← List.take_append_drop k l]
  simp only [beFoldB, List.foldl_append]
  rw [foldlMulAdd_init]
  rfl

theorem beFoldB_split64 (vs : List Nat) (hlen : vs.length = 64)
    (hlt : ∀ d ∈ vs, d < 16) :
    beFoldB 16 (vs.take 32) = beFoldB 16 vs / 2 ^ 128
    ∧ beFoldB 16 (vs.drop 32) = beFoldB 16 vs % 2 ^ 128 := by
  have hdlen : (vs.drop 32).length = 32 := by simp [hlen]
  have hlo : beFoldB 16 (vs.drop 32) < 2 ^ 128 := by
    have h := beFoldB_lt 16 (by norm_num) (vs.drop 32)
      (fun d hd => hlt d (List.mem_of_mem_drop hd))
    rw [hdlen] at h
    have : (16 : Nat) ^ 32 = 2 ^ 128 := by norm_num
    omega
  have hsplit := beFoldB_take_drop 16 vs 32
  rw [hdlen] at hsplit
  have h16 : (16 : Nat) ^ 32 = 2 ^ 128 := by norm_num
  rw [h16] at hsplit
  constructor
  · rw [hsplit, Nat.add_comm, Nat.add_mul_div_right _ _ (by positivity : (0:Nat) < 2 ^ 128),
      Nat.div_eq_of_lt hlo, Nat.zero_add]
  · rw [hsplit, Nat.add_comm, Nat.add_mul_mod_self_right, Nat.mod_eq_of_lt hlo]

/-! ### Character table lemmas -/

theorem hexVal?_digitChar : ∀ d : Nat, d < 16 → hexVal? (Nat.digitChar d) = some d := by
  decide

theorem decVal?_digitChar : ∀ d : Nat, d < 10 → decVal? (Nat.digitChar d) = some d := by
  decide

theorem digitChar_ne_x : ∀ d : Nat, d < 16 → Nat.digitChar d ≠ 'x' := by
  decide

theorem hexVal?_lt (c : Char) (v : Nat) (h : hexVal? c = some v) : v < 16 := by
  unfold hexVal? at h
  split_ifs at h <;>
    first
      | exact Option.noConfusion h
      | (injection h with h2; omega)

theorem hexVals?_map (l : List Nat) (h : ∀ d ∈ l, d < 16) :
    hexVals? (l.map Nat.digitChar) = some l := by
  induction l with
  | nil => rfl
  | cons d t ih =>
    simp only [List.map_cons, hexVals?]
    rw [hexVal?_digitChar d (h d (List.mem_cons_self d t)),
      ih (fun x hx => h x (List.mem_cons_of_mem d hx))]

theorem decVals?_map (l : List Nat) (h : ∀ d ∈ l, d < 10) :
    decVals? (l.map Nat.digitChar) = some l := by
  induction l with
  | nil => rfl
  | cons d t ih =>
    simp only [List.map_cons, decVals?]
    rw [decVal?_digitChar d (h d (List.mem_cons_self d t)),
      ih (fun x hx => h x (List.mem_cons_of_mem d hx))]

theorem hexVals?_length : ∀ (l : List Char) (vs : List Nat),
    hexVals? l = some vs → vs.length = l.length := by
  intro l
  induction l with
  | nil =>
    intro vs h
    injection h with h2
    subst h2
    rfl
  | cons c t ih =>
    intro vs h
    simp only [hexVals?] at h
    cases hc : hexVal? c with
    | none => rw [hc] at h; exact Option.noConfusion h
    | some v =>
      rw [hc] at h
      cases ht : hexVals? t with
      | none => rw [ht] at h; exact Option.noConfusion h
      | some vt =>
        rw [ht] at h
        injection h with h2
        subst h2
        rw [List.length_cons, List.length_cons, ih vt ht]

theorem hexVals?_lt : ∀ (l : List Char) (vs : List Nat),
    hexVals? l = some vs → ∀ d ∈ vs, d < 16 := by
  intro l
  induction l with
  | nil =>
    intro vs h d hd
    injection h with h2
    subst h2
    simp at hd
  | cons c t ih =>
    intro vs h d hd
    simp only [hexVals?] at h
    cases hc : hexVal? c with
    | none => rw [hc] at h; exact Option.noConfusion h
    | some v =>
      rw [hc] at h
      cases ht : hexVals? t with
      | none => rw [ht] at h; exact Option.noConfusion h
      | some vt =>
        rw [ht] at h
        injection h with h2
        subst h2
        rcases List.mem_cons.mp hd with h1 | h1
        · exact h1 ▸ hexVal?_lt c v hc
        · exact ih vt ht d h1

theorem hexVals?_replicate0 (m : Nat) (l : List Char) (vs : List Nat)
    (h : hexVals? l = some vs) :
    hexVals? (List.replicate m '0' ++ l) = some (List.replicate m 0 ++ vs) := by
  induction m with
  | zero => simpa using h
  | succ k ih =>
    rw [List.replicate_succ, List.cons_append]
    simp only [hexVals?]
    rw [show hexVal? '0' = some 0 from rfl, ih]
    simp [List.replicate_succ]

theorem beFoldB_replicate0 (b m : Nat) (l : List Nat) :
    beFoldB b (List.replicate m 0 ++ l) = beFoldB b l := by
  induction m with
  | zero => simp
  | succ k ih =>
    rw [List.replicate_succ, List.cons_append]
    simp only [beFoldB, List.foldl_cons]
    have hz : b * 0 + 0 = 0 := by ring
    rw [hz]
    exact ih

/-! ### Round-trip lemmas for the felt codec -/

theorem hexVals?_format_body (n : Nat) :
    hexVals? (if n = 0 then ['0'] else hexCharsBE n) =
      some (if n = 0 then [0] else (digitsAux 16 n n).reverse) := by
  by_cases h0 : n = 0
  · rw [if_pos h0, if_pos h0]
    decide
  · rw [if_neg h0, if_neg h0]
    unfold hexCharsBE
    apply hexVals?_map
    intro d hd
    exact digitsAux_lt 16 (by norm_num) n n d (List.mem_reverse.mp hd)

theorem decVals?_format_body (n : Nat) :
    decVals? (if n = 0 then ['0'] else decCharsBE n) =
      some (if n = 0 then [0] else (digitsAux 10 n n).reverse) := by
  by_cases h0 : n = 0
  · rw [if_pos h0, if_pos h0]
    decide
  · rw [if_neg h0, if_neg h0]
    unfold decCharsBE
    apply decVals?_map
    intro d hd
    exact digitsAux_lt 10 (by norm_num) n n d (List.mem_reverse.mp hd)

theorem beFoldB_format_val (b n : Nat) (hb : 2 ≤ b) :
    beFoldB b (if n = 0 then [0] else (digitsAux b n n).reverse) = n := by
  by_cases h0 : n = 0
  · rw [if_pos h0, h0]
    simp [beFoldB]
  · rw [if_neg h0, beFoldB_reverse, leVal_digitsAux b hb n n (le_refl n)]

theorem parse_hex_format_hex (n : Nat) (h : n < P) :
    parse_hex (format_hex n) = .ok n := by
  unfold parse_hex format_hex
  rw [show dropHexPre ('0' :: 'x' :: (if n = 0 then ['0'] else hexCharsBE n)) =
      (if n = 0 then ['0'] else hexCharsBE n) from rfl]
  rw [hexVals?_format_body n]
  simp only
  rw [beFoldB_format_val 16 n (by norm_num), if_pos h]

theorem parse_decimal_format_decimal (n : Nat) (h : n < P) :
    parse_decimal (format_decimal n) = .ok n := by
  unfold parse_decimal format_decimal
  rw [decVals?_format_body n]
  simp only
  rw [beFoldB_format_val 10 n (by norm_num), if_pos h]

/-! ### split_u256 lemmas -/

theorem strip0x_map_digitChar (ds : List Nat) (h : ∀ d ∈ ds, d < 16) :
    strip0x (ds.map Nat.digitChar) = ds.map Nat.digitChar := by
  cases ds with
  | nil => rfl
  | cons d1 t =>
    cases t with
    | nil => rfl
    | cons d2 t2 =>
      rw [List.map_cons, List.map_cons, strip0x, if_neg]
      intro hand
      exact digitChar_ne_x d2
        (h d2 (List.mem_cons_of_mem d1 (List.mem_cons_self d2 t2))) hand.2

theorem split_u256_eq_specAmended (s : List Char) :
    split_u256 s = split_u256_specAmended s := by
  unfold split_u256 split_u256_specAmended
  by_cases hlen : (strip0x s).length > 64
  · rw [if_pos hlen, if_pos hlen]
  · rw [if_neg hlen, if_neg hlen]
    cases hv : hexVals? (List.replicate (64 - (strip0x s).length) '0' ++ strip0x s) with
    | none => rfl
    | some vs =>
      simp only
      have hlen64 : vs.length = 64 := by
        rw [hexVals?_length _ _ hv, List.length_append, List.length_replicate]
        omega
      have hbound : ∀ d ∈ vs, d < 16 := hexVals?_lt _ _ hv
      have hsplit := beFoldB_split64 vs hlen64 hbound
      rw [hsplit.1, hsplit.2]

theorem strip0x_format_hex (v : Nat) :
    strip0x (format_hex v) = (if v = 0 then ['0'] else hexCharsBE v) := by
  unfold format_hex
  rw [strip0x_0x]
  by_cases h0 : v = 0
  · rw [if_pos h0]; rfl
  · rw [if_neg h0]
    unfold hexCharsBE
    apply strip0x_map_digitChar
    intro d hd
    exact digitsAux_lt 16 (by norm_num) v v d (List.mem_reverse.mp hd)

theorem format_hex_body_length (v : Nat) (hv : v < 2 ^ 256) :
    (if v = 0 then ['0'] else hexCharsBE v).length ≤ 64 := by
  by_cases h0 : v = 0
  · rw [if_pos h0]; simp
  · rw [if_neg h0]
    unfold hexCharsBE
    rw [List.length_map, List.length_reverse]
    apply digitsAux_length 16 (by norm_num) v 64 v (le_refl v)
    calc v < 2 ^ 256 := hv
    _ = 16 ^ 64 := by norm_num

theorem split_u256_format (v : Nat) (hv : v < 2 ^ 256) :
    split_u256 (format_hex v) =
      .ok (format_hex (v / 2 ^ 128), format_hex (v % 2 ^ 128)) := by
  rw [split_u256_eq_specAmended]
  unfold split_u256_specAmended
  rw [strip0x_format_hex]
  rw [if_neg (by have := format_hex_body_length v hv; omega :
    ¬ (if v = 0 then ['0'] else hexCharsBE v).length > 64)]
  rw [hexVals?_replicate0 _ _ _ (hexVals?_format_body v)]
  simp only
  rw [beFoldB_replicate0, beFoldB_format_val 16 v (by norm_num)]

/-! ### Claim theorems -/

/-- C1: for every call batch, generate_calldata_for_multicall_account
returns exactly the call count, then per call in order its target, selector,
data offset (sum of preceding calldata lengths, 0 for the first call) and
calldata length, then the total calldata length, then all calldata values in
call order.  Nothing else and no reordering. -/
theorem execute_calldata_layout (calls : List Call) :
    generate_calldata_for_multicall_account calls =
      calls.length ::
        (specCallHeaders calls 0 ++
          (concatAll (calls.map Call.calldata)).length ::
            concatAll (calls.map Call.calldata)) := by
  simp [generate_calldata_for_multicall_account, gcLoop_spec]

/-- C2: the documented multicall example input encodes, for every selector
hash collaborator hsel, to exactly the 14-element sequence
2; 0x123456789; hsel "balanceOf"; 0; 1; 0xabc298498723;
hsel "get_the_owner_of_something"; 1; 3; 4; 0x987654321; 0x1abdf988;
0x9872349; 0x19831. -/
theorem multicall_example_encoding (hsel : List Char → Nat) :
    generate_multicall_calldata hsel
      ("0x123456789 balanceOf 0x987654321 - 0xabc298498723 get_the_owner_of_something 0x1abdf988 0x9872349 0x19831".data) =
    .ok [2, 0x123456789, hsel ("balanceOf".data), 0, 1,
         0xabc298498723, hsel ("get_the_owner_of_something".data), 1, 3, 4,
         0x987654321, 0x1abdf988, 0x9872349, 0x19831] := by
  rfl

/-- C9: on the empty input string generate_multicall_calldata returns the
missing-function-name error for call 1 (not a count-zero batch): splitting
the empty string on hyphens yields one empty segment whose single empty
token is consumed as the target, leaving no function-name token. -/
theorem empty_input_missing_selector (hsel : List Char → Nat) :
    generate_multicall_calldata hsel ("".data) =
      .error (.missingSelector 1) := by
  rfl

/-- C10: split_u256 removes every leading lowercase "0x" occurrence (so
prepending "0x" never changes the result and "0x0x1" equals "0x1"), while
an uppercase "0X" prefix is not stripped and its X fails hex decoding. -/
theorem split_u256_prefix_stripping :
    (∀ s : List Char, split_u256 ('0' :: 'x' :: s) = split_u256 s)
    ∧ split_u256 ("0x0x1".data) = .ok ("0x0".data, "0x1".data)
    ∧ split_u256 ("0x1".data) = .ok ("0x0".data, "0x1".data)
    ∧ split_u256 ("0X1".data) = .error .invalidFormat := by
  refine ⟨fun s => ?_, by decide, by decide, by decide⟩
  simp [split_u256, strip0x_0x]

/-- C7: when every call before index i parses successfully and the call at
1-based index i has a target token but no function-name token,
generate_multicall_calldata fails with the missing-function-name error for
call i (MissingField "selector" i). -/
theorem missing_selector_error (hsel : List Char → Nat) (args : List Char)
    (pre post : List (List Char)) (seg : List Char) (cs : List Call)
    (toTok : List Char)
    (hsplit : splitOnChar '-' args = pre ++ seg :: post)
    (hpre : parseCalls hsel 1 pre = .ok cs)
    (hseg : splitOnChar ' ' (trimChars seg) = [toTok]) :
    generate_multicall_calldata hsel args =
      .error (.missingSelector (pre.length + 1)) := by
  apply gen_error
  rw [hsplit]
  apply parseCalls_append_error hsel pre 1 cs _ _ hpre
  apply parseCalls_cons_error
  simp [parseCall, hseg, Nat.add_comm]

/-- C7 witness: the spec's example "0x1 - 0x2 foo" fails with
MissingField "selector" 1. -/
theorem missing_selector_error_witness :
    generate_multicall_calldata (fun _ => 0) ("0x1 - 0x2 foo".data) =
      .error (.missingSelector 1) :=
  missing_selector_error (fun _ => 0) ("0x1 - 0x2 foo".data)
    [] [(" 0x2 foo".data)] ("0x1 ".data) [] ("0x1".data)
    (by decide) (by decide) (by decide)

/-- C8: for every felt value f in [0, P), parsing the canonical hex form
produced by format_hex (to_hex) yields f again, and parsing the canonical
decimal form produced by format_decimal (to_dec) yields f again. -/
theorem felt_roundtrip (f : Nat) (hf : f < P) :
    parse_hex (format_hex f) = .ok f
    ∧ parse_decimal (format_decimal f) = .ok f :=
  ⟨parse_hex_format_hex f hf, parse_decimal_format_decimal f hf⟩

/-- C8 witness: concrete round trip at the felt value 261. -/
theorem felt_roundtrip_witness :
    parse_hex (format_hex 261) = .ok 261
    ∧ parse_decimal (format_decimal 261) = .ok 261 :=
  felt_roundtrip 261 (by decide)

/-- C3 counterexample: at v = 2^128 the split yields high "0x1", low "0x0",
and the code's join — concatenating high's 0x-prefixed hex with low's
unpadded hex, as get_eth_balance does — produces "0x10", whose value is 16,
not 2^128; the numeric reconstruction high * 2^128 + low does give back v. -/
theorem u256_join_concat_cex :
    split_u256 ("0x100000000000000000000000000000000".data) =
      .ok ("0x1".data, "0x0".data)
    ∧ join_concat 1 0 = "0x10".data
    ∧ parse_hex ("0x10".data) = .ok 16
    ∧ (16 : Nat) ≠ 2 ^ 128
    ∧ 1 * 2 ^ 128 + 0 = 2 ^ 128 := by
  refine ⟨by decide, by decide, by decide, by decide, by norm_num⟩

/-- C3 amended: for every 256-bit v, split_u256 on v's canonical hex form
returns the canonically formatted pair (high, low) = (v / 2^128, v % 2^128),
each half parses back to its numeric value, and the numeric join
high * 2^128 + low reconstructs v.  (The string-concatenation realization
of the join is not equivalent to this; see the counterexample.) -/
theorem u256_split_join (v : Nat) (hv : v < 2 ^ 256) :
    split_u256 (format_hex v) =
      .ok (format_hex (v / 2 ^ 128), format_hex (v % 2 ^ 128))
    ∧ parse_hex (format_hex (v / 2 ^ 128)) = .ok (v / 2 ^ 128)
    ∧ parse_hex (format_hex (v % 2 ^ 128)) = .ok (v % 2 ^ 128)
    ∧ v / 2 ^ 128 * 2 ^ 128 + v % 2 ^ 128 = v := by
  have hP : (2 : Nat) ^ 128 < P := by norm_num [P]
  have hdiv : v / 2 ^ 128 < P := by
    have h1 : v / 2 ^ 128 < 2 ^ 128 := by
      apply Nat.div_lt_of_lt_mul
      calc v < 2 ^ 256 := hv
      _ = 2 ^ 128 * 2 ^ 128 := by norm_num
    omega
  have hmod : v % 2 ^ 128 < P := by
    have h1 : v % 2 ^ 128 < 2 ^ 128 := Nat.mod_lt _ (by positivity)
    omega
  refine ⟨split_u256_format v hv, parse_hex_format_hex _ hdiv,
    parse_hex_format_hex _ hmod, ?_⟩
  rw [Nat.mul_comm]
  exact Nat.div_add_mod v (2 ^ 128)

/-- C3 amended witness: concrete split-and-join round trip at
v = 2^128 + 26. -/
theorem u256_split_join_witness :
    split_u256 (format_hex (2 ^ 128 + 26)) =
      .ok (format_hex ((2 ^ 128 + 26) / 2 ^ 128),
           format_hex ((2 ^ 128 + 26) % 2 ^ 128))
    ∧ parse_hex (format_hex ((2 ^ 128 + 26) / 2 ^ 128)) =
        .ok ((2 ^ 128 + 26) / 2 ^ 128)
    ∧ parse_hex (format_hex ((2 ^ 128 + 26) % 2 ^ 128)) =
        .ok ((2 ^ 128 + 26) % 2 ^ 128)
    ∧ (2 ^ 128 + 26) / 2 ^ 128 * 2 ^ 128 + (2 ^ 128 + 26) % 2 ^ 128 =
        2 ^ 128 + 26 :=
  u256_split_join (2 ^ 128 + 26) (by norm_num)

/-- C4 counterexample: on "0x0x1" the code strips both "0x" occurrences and
succeeds, while the claim's procedure — stripping a single optional prefix —
leaves "0x1", whose x fails the big-endian hex decoding. -/
theorem split_u256_single_strip_cex :
    split_u256 ("0x0x1".data) = .ok ("0x0".data, "0x1".data)
    ∧ split_u256_asClaimed ("0x0x1".data) = .error .invalidFormat
    ∧ split_u256 ("0x0x1".data) ≠ split_u256_asClaimed ("0x0x1".data) := by
  refine ⟨by decide, by decide, by decide⟩

/-- C4 amended: for every input string, split_u256 strips every leading
lowercase "0x" occurrence; if the remaining digit count exceeds 64 it fails
OutOfRange; otherwise it left-pads with '0' to exactly 64 digits, decodes
big-endian (failing on a non-hex digit), and returns the canonically
formatted values of the first 16 bytes (v / 2^128) and last 16 bytes
(v % 2^128). -/
theorem split_u256_matches_spec (s : List Char) :
    split_u256 s = split_u256_specAmended s :=
  split_u256_eq_specAmended s

/-- C5 counterexample: in "zz foo ww" both the target token "zz" and the
calldata token "ww" fail felt parsing, and the returned error is the
calldata token's error ("in calldata for call 1"), not the target's
("for call 1 contract address") as the claim states: the source parses the
calldata tokens before constructing the Call value that parses the target. -/
theorem target_calldata_error_order_cex :
    generate_multicall_calldata (fun _ => 0) ("zz foo ww".data) =
      .error (.invalidCalldataToken 1 .invalidFormat)
    ∧ generate_multicall_calldata (fun _ => 0) ("zz foo ww".data) ≠
      .error (.invalidTarget 1 .invalidFormat) := by
  refine ⟨by decide, by decide⟩

/-- C5 amended: rule 5 applies before rule 3 — when every call before index
i parses successfully and the call at 1-based index i has a target token
that fails felt parsing and a calldata token that fails felt parsing, the
returned error is the calldata token's InvalidCalldata error, not the
target's. -/
theorem calldata_error_precedes_target_error (hsel : List Char → Nat)
    (args : List Char) (pre post : List (List Char)) (seg : List Char)
    (cs : List Call) (toTok selTok : List Char) (rest : List (List Char))
    (i : Nat) (et e : FeltError)
    (hi : i = pre.length + 1)
    (hsplit : splitOnChar '-' args = pre ++ seg :: post)
    (hpre : parseCalls hsel 1 pre = .ok cs)
    (hseg : splitOnChar ' ' (trimChars seg) = toTok :: selTok :: rest)
    (_htarget : from_str toTok = .error et)
    (hcd : parseFeltTokens i rest = .error (.invalidCalldataToken i e)) :
    generate_multicall_calldata hsel args =
      .error (.invalidCalldataToken i e) := by
  subst hi
  apply gen_error
  rw [hsplit]
  apply parseCalls_append_error hsel pre 1 cs _ _ hpre
  apply parseCalls_cons_error
  have hcd' : parseFeltTokens (1 + pre.length) rest =
      .error (.invalidCalldataToken (pre.length + 1) e) := by
    rw [Nat.add_comm]; exact hcd
  simp [parseCall, hseg, hcd']

/-- C5 amended witness: concrete instance of the amended rule ordering on
the input "zz foo ww". -/
theorem calldata_error_precedes_target_error_witness :
    generate_multicall_calldata (fun _ => 0) ("zz foo ww".data) =
      .error (.invalidCalldataToken 1 .invalidFormat) :=
  calldata_error_precedes_target_error (fun _ => 0) ("zz foo ww".data)
    [] [] ("zz foo ww".data) [] ("zz".data) ("foo".data) [("ww".data)]
    1 .invalidFormat .invalidFormat
    (by decide) (by decide) (by decide) (by decide) (by decide) (by decide)

/-- C6 counterexample: in "0x1 foo - - 0x2 bar" the call at index 2 is an
empty segment between hyphen separators (a missing target), yet the
returned error is MissingField "selector" 2, not MissingField "to" 2 as the
claim states: splitting a segment on spaces always yields a first token
(possibly empty), which is consumed as the target. -/
theorem empty_segment_not_missing_to_cex :
    generate_multicall_calldata (fun _ => 0) ("0x1 foo - - 0x2 bar".data) =
      .error (.missingSelector 2)
    ∧ generate_multicall_calldata (fun _ => 0) ("0x1 foo - - 0x2 bar".data) ≠
      .error (.missingTo 2) := by
  refine ⟨by decide, by decide⟩

/-- C6 amended: when every call before index i parses successfully and the
call at 1-based index i is an empty (or whitespace-only) segment between
hyphen separators, generate_multicall_calldata fails with
MissingField "selector" i — the MissingField "to" error is not produced. -/
theorem empty_segment_missing_selector (hsel : List Char → Nat)
    (args : List Char) (pre post : List (List Char)) (seg : List Char)
    (cs : List Call)
    (hsplit : splitOnChar '-' args = pre ++ seg :: post)
    (hpre : parseCalls hsel 1 pre = .ok cs)
    (htrim : trimChars seg = []) :
    generate_multicall_calldata hsel args =
      .error (.missingSelector (pre.length + 1))
    ∧ generate_multicall_calldata hsel args ≠
      .error (.missingTo (pre.length + 1)) := by
  have h : generate_multicall_calldata hsel args =
      .error (.missingSelector (pre.length + 1)) := by
    apply gen_error
    rw [hsplit]
    apply parseCalls_append_error hsel pre 1 cs _ _ hpre
    apply parseCalls_cons_error
    simp [parseCall, htrim, splitOnChar, Nat.add_comm]
  exact ⟨h, by rw [h]; simp⟩

/-- C6 amended witness: concrete instance on "0x1 foo - - 0x2 bar", whose
second segment is whitespace-only. -/
theorem empty_segment_missing_selector_witness :
    generate_multicall_calldata (fun _ => 0) ("0x1 foo - - 0x2 bar".data) =
      .error (.missingSelector 2)
    ∧ generate_multicall_calldata (fun _ => 0) ("0x1 foo - - 0x2 bar".data) ≠
      .error (.missingTo 2) :=
  empty_segment_missing_selector (fun _ => 0) ("0x1 foo - - 0x2 bar".data)
    [("0x1 foo ".data)] [(" 0x2 bar".data)] (" ".data) [⟨1, 0, []⟩]
    (by decide) (by decide) (by decide)

end StarknetProbe
